import Mathlib

/-!
Verification development for the ACASM Minnesota county/state workforce
calculator (`src/app.py`).

The app computes per-county workforce metrics with pandas and rolls them up
to a statewide figure.  Numeric cells are embedded as `PVal`: an exact
rational together with the two infinities and a not-a-number sentinel, with
the IEEE-style propagation rules that float arithmetic in pandas/numpy
follows (`nan` propagates; `x / 0` is a signed infinity for `x ≠ 0` and
`nan` for `0 / 0`; comparisons against `nan` are false).  Signed zero is not
tracked: division by an exact zero denominator takes the sign of the
numerator, which matches the program on its non-negative staffing and
productivity data.  Tables are embedded as lists of records, one structure
field per column used by the program.
-/

/-- A pandas/numpy float cell value: exact rational, `+inf`, `-inf`, or NaN. -/
inductive PVal where
  | num (q : ℚ)
  | pinf
  | ninf
  | nan
deriving DecidableEq, Repr

namespace PVal

/-- `pd.isna` on a float cell: true exactly for NaN (not for infinities). -/
def isna : PVal → Bool
  | nan => true
  | _ => false

/-- Float negation. -/
def neg : PVal → PVal
  | num q => num (-q)
  | pinf => ninf
  | ninf => pinf
  | nan => nan

/-- Float addition with IEEE propagation (`inf + -inf = nan`, NaN propagates). -/
def add : PVal → PVal → PVal
  | num a, num b => num (a + b)
  | num _, pinf => pinf
  | num _, ninf => ninf
  | pinf, num _ => pinf
  | ninf, num _ => ninf
  | pinf, pinf => pinf
  | ninf, ninf => ninf
  | pinf, ninf => nan
  | ninf, pinf => nan
  | _, _ => nan

/-- Float subtraction, `a - b = a + (-b)`. -/
def sub (a b : PVal) : PVal := add a (neg b)

/-- Float multiplication with IEEE propagation (`0 * inf = nan`, NaN propagates). -/
def mul : PVal → PVal → PVal
  | num a, num b => num (a * b)
  | num a, pinf => if 0 < a then pinf else if a < 0 then ninf else nan
  | num a, ninf => if 0 < a then ninf else if a < 0 then pinf else nan
  | pinf, num b => if 0 < b then pinf else if b < 0 then ninf else nan
  | ninf, num b => if 0 < b then ninf else if b < 0 then pinf else nan
  | pinf, pinf => pinf
  | pinf, ninf => ninf
  | ninf, pinf => ninf
  | ninf, ninf => pinf
  | _, _ => nan

/-- Float division.  `a / 0` is `nan` when `a = 0` and a signed infinity
otherwise (sign of the numerator: zero denominators arising in the program
are products of non-negative data, i.e. IEEE `+0`).  `inf / inf = nan`,
`a / inf = 0`, NaN propagates. -/
def div : PVal → PVal → PVal
  | num a, num b =>
      if b = 0 then (if a = 0 then nan else if 0 < a then pinf else ninf)
      else num (a / b)
  | num _, pinf => num 0
  | num _, ninf => num 0
  | pinf, num b => if 0 ≤ b then pinf else ninf
  | ninf, num b => if 0 ≤ b then ninf else pinf
  | _, _ => nan

/-- Float strict comparison `a < b`; false whenever either side is NaN. -/
def plt : PVal → PVal → Bool
  | num a, num b => decide (a < b)
  | num _, pinf => true
  | ninf, num _ => true
  | ninf, pinf => true
  | _, _ => false

/-- Float comparison `a ≤ b`; false whenever either side is NaN. -/
def ple : PVal → PVal → Bool
  | num a, num b => decide (a ≤ b)
  | num _, pinf => true
  | ninf, num _ => true
  | ninf, ninf => true
  | ninf, pinf => true
  | pinf, pinf => true
  | _, _ => false

/-- Python truthiness of a float: `0.0` is falsy, everything else (NaN and
the infinities included) is truthy. -/
def truthy : PVal → Bool
  | num q => decide (q ≠ 0)
  | _ => true

end PVal

/-- A finite-or-NaN float cell (no infinities); the shape ordinary workbook
data has. -/
def finOrNan (v : PVal) : Prop := v ≠ PVal.pinf ∧ v ≠ PVal.ninf

instance (v : PVal) : Decidable (finOrNan v) := by
  unfold finOrNan; infer_instance

/-- The rational carried by a defined (finite) cell, `none` otherwise. -/
def toQ : PVal → Option ℚ
  | PVal.num q => some q
  | _ => none

/-- Sum of the defined (finite rational) values of a column — the
spec-side "sum over only the defined values". -/
def defsum (l : List PVal) : ℚ := (l.filterMap toQ).sum

/-- `Series.sum(skipna=True)`: drop the NaN cells, then left-fold float
addition starting from `0.0` (an all-NaN or empty column sums to `0.0`). -/
def sumSkip (l : List PVal) : PVal :=
  (l.filter (fun v => !v.isna)).foldl PVal.add (PVal.num 0)

/-- A raw spreadsheet cell before numeric coercion: a number, a missing
value (NaN), or non-numeric junk that `pd.to_numeric(errors="coerce")`
turns into NaN. -/
inductive RawCell where
  | rnum (q : ℚ)
  | rnan
  | rbad (s : String)
deriving DecidableEq, Repr

/-- `pd.to_numeric(errors="coerce")` followed by `.fillna(0.0)`: numbers
pass through, missing and non-numeric cells become `0`. -/
def coerceCell : RawCell → ℚ
  | RawCell.rnum q => q
  | _ => 0

/-- Python `str.strip()` on a character list: drop leading and trailing
whitespace. -/
def stripChars (l : List Char) : List Char :=
  ((l.dropWhile Char.isWhitespace).reverse.dropWhile Char.isWhitespace).reverse

/-- Python `str.strip()` on a string. -/
def stripStr (s : String) : String := String.mk (stripChars s.data)

/-- `rag(util, green, amber)` from `src/app.py`: `""` for NaN (the explicit
undefined category), `"RED"` for `util ≥ amber`, `"AMBER"` for
`util ≥ green`, else `"GREEN"`. -/
def rag (util : PVal) (green amber : ℚ) : String :=
  if util.isna then ""
  else if PVal.ple (PVal.num amber) util then "RED"
  else if PVal.ple (PVal.num green) util then "AMBER"
  else "GREEN"

/-- `rag` at its default thresholds `green=0.75`, `amber=0.85`, as the
program calls it on every recompute and snapshot path. -/
def ragD (util : PVal) : String := rag util 0.75 0.85

/-- One row of the unit outputs table (`Tableau_Export`), one field per
column the program reads or writes. -/
structure UnitRow where
  county : String
  ap : PVal
  cpf : PVal
  p_ref : PVal
  p_eff : PVal
  fte_on : PVal
  utilization : PVal
  backlog_start : PVal
  backlog_end : PVal
  fte_required : PVal
  gap : PVal
  rag : String
deriving DecidableEq, Repr

/-- The dictionary returned by `compute_state_rollup`. -/
structure Rollup where
  AP_state : PVal
  Capacity_state : PVal
  Util_state : PVal
  FTE_required_state : PVal
  FTE_on_state : PVal
  Gap_state : PVal
  Backlog_Start_state : PVal
  Backlog_End_state : PVal
deriving DecidableEq, Repr

/-- `compute_state_rollup(df)` from `src/app.py`: `skipna` column sums, a
capacity sum of the elementwise `FTE_on * P_eff` products, and
`Util_state = AP_state / Capacity_state` guarded by Python truthiness and
`> 0` exactly as in the source (`if cap_state and cap_state > 0`). -/
def compute_state_rollup (df : List UnitRow) : Rollup :=
  let ap_state := sumSkip (df.map (fun r => r.ap))
  let cap_state := sumSkip (df.map (fun r => PVal.mul r.fte_on r.p_eff))
  let util_state :=
    if cap_state.truthy && PVal.plt (PVal.num 0) cap_state
    then PVal.div ap_state cap_state else PVal.nan
  { AP_state := ap_state
    Capacity_state := cap_state
    Util_state := util_state
    FTE_required_state := sumSkip (df.map (fun r => r.fte_required))
    FTE_on_state := sumSkip (df.map (fun r => r.fte_on))
    Gap_state := sumSkip (df.map (fun r => r.gap))
    Backlog_Start_state := sumSkip (df.map (fun r => r.backlog_start))
    Backlog_End_state := sumSkip (df.map (fun r => r.backlog_end)) }

/-- One row of the `County_Arrivals` sheet. -/
structure ArrivalRow where
  county : String
  category : String
  count : RawCell
  weight : RawCell
deriving DecidableEq, Repr

/-- One row of the weight-override table (`weights_df`). -/
structure WRow where
  category : String
  weight : RawCell
deriving DecidableEq, Repr

/-- Line 64: strip the `Category` column of the override table. -/
def stripWRow (x : WRow) : WRow := { x with category := stripStr x.category }

/-- Lines 59-60: strip the `County` and `Category` columns of the
arrivals table. -/
def stripArrival (r : ArrivalRow) : ArrivalRow :=
  { r with county := stripStr r.county, category := stripStr r.category }

/-- The weight-override block of `recompute_from_arrivals` (lines 62-67):
strip the override categories, left-merge on `Category` (each arrival row
is paired with every override row whose stripped category equals its own,
kept as-is when none matches), then `Weight = Weight_new.fillna(Weight)`
(an override cell that is itself missing falls back to the original
weight).  Skipped when the override table is `None` or empty. -/
def applyWeightOverride (a : List ArrivalRow) (weights_df : Option (List WRow)) :
    List ArrivalRow :=
  match weights_df with
  | none => a
  | some wdf =>
    if wdf.isEmpty then a else
    a.flatMap (fun r =>
      match (wdf.map stripWRow).filter (fun x => x.category == r.category) with
      | [] => [r]
      | ms => ms.map (fun x =>
          { r with weight := if x.weight == RawCell.rnan then r.weight else x.weight }))

/-- Lines 58-71 of `recompute_from_arrivals`: strip `County` and
`Category`, apply the weight override, coerce `Count` and `Weight`
(`to_numeric(errors="coerce").fillna(0.0)`), and form
`Points_calc = Count * Weight` keyed by county. -/
def pointsRows (arr : List ArrivalRow) (weights_df : Option (List WRow)) :
    List (String × ℚ) :=
  (applyWeightOverride (arr.map stripArrival) weights_df).map
    (fun r => (r.county, coerceCell r.count * coerceCell r.weight))

/-- `groupby("County")["Points_calc"].sum()` evaluated at one county key. -/
def ap_calc (pts : List (String × ℚ)) (c : String) : ℚ :=
  ((pts.filter (fun x => x.1 == c)).map (fun x => x.2)).sum

/-- Whether a county key appears in the grouped arrivals (the left-merge
produces a defined `AP_calc` exactly for these rows). -/
def hasCounty (pts : List (String × ℚ)) (c : String) : Bool :=
  pts.any (fun x => x.1 == c)

/-- Line 75: strip the `County` column of the outputs table. -/
def stripCountyRow (r : UnitRow) : UnitRow := { r with county := stripStr r.county }

/-- Lines 76-78: left-merge the grouped arrival points and
`AP = AP_calc.fillna(AP)` — a county with arrival rows gets the grouped
sum, any other county keeps its previous `AP`. -/
def apStep (pts : List (String × ℚ)) (r : UnitRow) : UnitRow :=
  if hasCounty pts r.county then { r with ap := PVal.num (ap_calc pts r.county) } else r

/-- Lines 81-85, the dependent-field block: unguarded float formulas
`Utilization = AP / (FTE_on * P_eff)`,
`Backlog_End = Backlog_Start + AP - FTE_on * P_eff`,
`FTE_required = AP / P_eff + 0.30` (fallback buffer constant),
`Gap = FTE_required - FTE_on`, and `RAG = rag(Utilization)` at the default
thresholds. -/
def depStep (r : UnitRow) : UnitRow :=
  let cap := PVal.mul r.fte_on r.p_eff
  let util := PVal.div r.ap cap
  let freq := PVal.add (PVal.div r.ap r.p_eff) (PVal.num 0.30)
  { r with
    utilization := util
    backlog_end := PVal.sub (PVal.add r.backlog_start r.ap) cap
    fte_required := freq
    gap := PVal.sub freq r.fte_on
    rag := ragD util }

/-- `recompute_from_arrivals(df_out, arrivals, weights_df)` from
`src/app.py`: pass-through when the arrivals table is absent or empty;
otherwise recompute `AP` from the (possibly weight-overridden) arrivals
and rebuild the dependent fields row by row. -/
def recompute_from_arrivals (df_out : List UnitRow) (arrivals : Option (List ArrivalRow))
    (weights_df : Option (List WRow)) : List UnitRow :=
  match arrivals with
  | none => df_out
  | some arr =>
    if arr.isEmpty then df_out else
    let pts := pointsRows arr weights_df
    df_out.map (fun r => depStep (apStep pts (stripCountyRow r)))

/-- One row of the session history ledger (`st.session_state["hist_state"]`):
a unit outputs row plus the `Period` and `Level` columns added by the
snapshot handler. -/
structure HistRow where
  county : String
  period : String
  level : String
  ap : PVal
  cpf : PVal
  p_ref : PVal
  p_eff : PVal
  fte_on : PVal
  utilization : PVal
  backlog_start : PVal
  backlog_end : PVal
  fte_required : PVal
  gap : PVal
  rag : String
deriving DecidableEq, Repr

/-- Lines 241-243: a county row of the snapshot — the current outputs row
with `Period` set to the new label and `Level = "County"`. -/
def unitSnapRow (p : String) (r : UnitRow) : HistRow :=
  { county := r.county, period := p, level := "County"
    ap := r.ap, cpf := r.cpf, p_ref := r.p_ref, p_eff := r.p_eff
    fte_on := r.fte_on, utilization := r.utilization
    backlog_start := r.backlog_start, backlog_end := r.backlog_end
    fte_required := r.fte_required, gap := r.gap, rag := r.rag }

/-- Lines 245-261: the statewide snapshot row built from
`compute_state_rollup(df)`, with `P_eff`, `CPF`, `P_ref` set to NaN and
`RAG = rag(Util_state)` at the default thresholds. -/
def stateRow (p : String) (df : List UnitRow) : HistRow :=
  let srow := compute_state_rollup df
  { county := "Minnesota (Statewide)", period := p, level := "State"
    ap := srow.AP_state, utilization := srow.Util_state
    fte_required := srow.FTE_required_state, fte_on := srow.FTE_on_state
    gap := srow.Gap_state, backlog_start := srow.Backlog_Start_state
    backlog_end := srow.Backlog_End_state
    p_eff := PVal.nan, cpf := PVal.nan, p_ref := PVal.nan
    rag := ragD srow.Util_state }

/-- Lines 240-263, the "Append snapshot" handler: concatenate the county
rows and then the single state row onto the end of the ledger
(`pd.concat` twice, `ignore_index=True`). -/
def appendSnapshot (p : String) (df : List UnitRow) (hist : List HistRow) :
    List HistRow :=
  hist ++ (df.map (unitSnapRow p) ++ [stateRow p df])

/-- Manual-mode baseline productivity, line 283:
`p_ref = completed_points_base / avg_fte_base` (float division). -/
def p_refOf (completed_base avg_fte_base : ℚ) : PVal :=
  PVal.div (PVal.num completed_base) (PVal.num avg_fte_base)

/-- Manual-mode complexity factor, line 288:
`cpf = wbar_current / wbar_baseline if wbar_baseline > 0 else 1.0`. -/
def cpfOf (wbar_current wbar_baseline : ℚ) : PVal :=
  if 0 < wbar_baseline then PVal.div (PVal.num wbar_current) (PVal.num wbar_baseline)
  else PVal.num 1

/-- Manual-mode effective productivity, line 289:
`p_eff = p_ref / cpf if cpf > 0 else 0.0`. -/
def p_effOf (p_ref cpf : PVal) : PVal :=
  if PVal.plt (PVal.num 0) cpf then PVal.div p_ref cpf else PVal.num 0

/-- The manual-mode result record (lines 283-312). -/
structure ManualOut where
  p_ref : PVal
  cpf : PVal
  p_eff : PVal
  cap_eff : PVal
  utilization : PVal
  backlog_end : PVal
  fte_required : PVal
  gap : PVal
  rag : String
deriving DecidableEq, Repr

/-- Manual mode (lines 283-312): the productivity pipeline followed by the
guarded formula block
`cap_eff = fte_on * p_eff`;
`util = ap / cap_eff if cap_eff > 0 else nan`;
`backlog_end = backlog_start + ap - cap_eff`;
`fte_required = ap / p_eff + buffer if p_eff > 0 else nan`;
`gap = fte_required - fte_on if pd.notna(fte_required) else nan`;
`rag(util)` at the default thresholds. -/
def manualCompute (completed_base avg_fte_base wbar_current wbar_baseline
    fte_on buffer backlog_start ap : ℚ) : ManualOut :=
  let p_ref := p_refOf completed_base avg_fte_base
  let cpf := cpfOf wbar_current wbar_baseline
  let p_eff := p_effOf p_ref cpf
  let cap_eff := PVal.mul (PVal.num fte_on) p_eff
  let util := if PVal.plt (PVal.num 0) cap_eff
    then PVal.div (PVal.num ap) cap_eff else PVal.nan
  let freq := if PVal.plt (PVal.num 0) p_eff
    then PVal.add (PVal.div (PVal.num ap) p_eff) (PVal.num buffer) else PVal.nan
  let gap := if !freq.isna then PVal.sub freq (PVal.num fte_on) else PVal.nan
  { p_ref := p_ref, cpf := cpf, p_eff := p_eff, cap_eff := cap_eff
    utilization := util
    backlog_end := PVal.sub (PVal.add (PVal.num backlog_start) (PVal.num ap)) cap_eff
    fte_required := freq, gap := gap, rag := ragD util }

/-- C7: appending a snapshot over `N` units grows the ledger by exactly
`N + 1` rows (`N` county-level rows plus one state-level row), all tagged
with the same period label; the previously appended rows are unchanged in
content and order; and appending the same period label again only adds
further entries on top of the previous ones. -/
theorem c7_ledger_append (p : String) (df : List UnitRow) (hist : List HistRow) :
    (appendSnapshot p df hist).length = hist.length + (df.length + 1)
    ∧ (appendSnapshot p df hist).take hist.length = hist
    ∧ ((appendSnapshot p df hist).drop hist.length).all (fun r => r.period == p) = true
    ∧ ((appendSnapshot p df hist).drop hist.length).countP (fun r => r.level == "State") = 1
    ∧ ((appendSnapshot p df hist).drop hist.length).countP (fun r => r.level == "County")
        = df.length
    ∧ (appendSnapshot p df (appendSnapshot p df hist)).take (appendSnapshot p df hist).length
        = appendSnapshot p df hist := by
  refine ⟨?_, ?_, ?_, ?_, ?_, ?_⟩
  · simp [appendSnapshot]
  · exact List.take_left' rfl
  · simp [appendSnapshot, List.drop_left', unitSnapRow, stateRow]
  · simp [appendSnapshot, List.drop_left', List.countP_append, List.countP_map,
      Function.comp, unitSnapRow, stateRow]
  · simp [appendSnapshot, List.drop_left', List.countP_append, List.countP_map,
      Function.comp, unitSnapRow, stateRow]
  · exact List.take_left' rfl

/-- C10: the appended state-level snapshot row (the last row of each
appended block) has NaN `P_eff`, `CPF` and `P_ref`, the fixed unit name
`"Minnesota (Statewide)"`, level tag `"State"`, and its RAG computed from
`Util_state` at the default thresholds `0.75`/`0.85`; the other appended
rows are all tagged `"County"`. -/
theorem c10_state_snapshot_row (p : String) (df : List UnitRow) (hist : List HistRow) :
    (appendSnapshot p df hist).getLast? = some (stateRow p df)
    ∧ (stateRow p df).p_eff = PVal.nan
    ∧ (stateRow p df).cpf = PVal.nan
    ∧ (stateRow p df).p_ref = PVal.nan
    ∧ (stateRow p df).county = "Minnesota (Statewide)"
    ∧ (stateRow p df).level = "State"
    ∧ (stateRow p df).rag = rag (compute_state_rollup df).Util_state 0.75 0.85
    ∧ ((appendSnapshot p df hist).drop hist.length).dropLast.all
        (fun r => r.level == "County") = true := by
  refine ⟨?_, rfl, rfl, rfl, rfl, rfl, rfl, ?_⟩
  · rw [appendSnapshot, ← List.append_assoc]
    simp
  · simp [appendSnapshot, List.drop_left', unitSnapRow, stateRow]

/-- C2: for any thresholds with `green < amber`, the classifier returns
`"RED"` iff `u ≥ amber`, `"AMBER"` iff `green ≤ u < amber`, `"GREEN"` iff
`u < green`, and the explicit undefined category (rendered as the empty
string, never one of the three tiers) iff `u` is NaN; the documented
defaults are `green = 0.75`, `amber = 0.85`. -/
theorem c2_rag_classifier (u : PVal) (green amber : ℚ) (h : green < amber) :
    (rag u green amber = "RED" ↔ PVal.ple (PVal.num amber) u = true)
    ∧ (rag u green amber = "AMBER" ↔
        (PVal.ple (PVal.num green) u = true ∧ PVal.plt u (PVal.num amber) = true))
    ∧ (rag u green amber = "GREEN" ↔ PVal.plt u (PVal.num green) = true)
    ∧ (rag u green amber = "" ↔ u.isna = true)
    ∧ ragD u = rag u 0.75 0.85 := by
  refine ⟨?_, ?_, ?_, ?_, rfl⟩ <;>
    cases u <;> simp [rag, PVal.ple, PVal.plt, PVal.isna] <;> split_ifs <;>
    simp_all <;> linarith

/-- Witness for C2 at the default thresholds: `0.75 < 0.85` and a
utilization of `0.9` classifies as `"RED"`. -/
theorem c2_rag_classifier_witness :
    (0.75 : ℚ) < 0.85 ∧ rag (PVal.num 0.9) 0.75 0.85 = "RED" := by
  have h : (0.75 : ℚ) < 0.85 := by norm_num
  refine ⟨h, ?_⟩
  exact (c2_rag_classifier (PVal.num 0.9) 0.75 0.85 h).1.mpr
    (by simp [PVal.ple]; norm_num)

/-- Counterexample to C6: the claim says an undefined (NaN) `P_ref`
propagates to an undefined `P_eff` regardless of the value of `CPF`.  But
with `completed_points = 0`, `avg_fte_baseline = 0` (so `P_ref` is NaN) and
`wbar_current = 0`, `wbar_baseline = 1` (so `CPF = 0`, allowed by the
claim's `wbar ≥ 0` hypotheses), line 289's `else 0.0` branch makes
`P_eff = 0.0`, a defined value, not NaN. -/
theorem c6_counterexample :
    (p_refOf 0 0).isna = true
    ∧ cpfOf 0 1 = PVal.num 0
    ∧ p_effOf (p_refOf 0 0) (cpfOf 0 1) = PVal.num 0
    ∧ (p_effOf (p_refOf 0 0) (cpfOf 0 1)).isna = false := by
  refine ⟨?_, ?_, ?_, ?_⟩ <;> with_unfolding_all rfl

/-- C6 as amended: `CPF = wbar_current / wbar_baseline` when
`wbar_baseline > 0` and `1.0` otherwise; `P_eff = P_ref / CPF` when
`CPF > 0`; a NaN `P_ref` propagates to a NaN `P_eff` whenever `CPF > 0`;
but when `CPF = 0` (reachable with `wbar_current = 0`), `P_eff` is the
defined value `0`, even for a NaN `P_ref`. -/
theorem c6_productivity_pipeline (wc wb : ℚ) (hwc : 0 ≤ wc) (hwb : 0 ≤ wb) (pr : PVal) :
    (0 < wb → cpfOf wc wb = PVal.num (wc / wb))
    ∧ (¬ 0 < wb → cpfOf wc wb = PVal.num 1)
    ∧ (∀ p c : ℚ, 0 < c → p_effOf (PVal.num p) (PVal.num c) = PVal.num (p / c))
    ∧ (pr.isna = true → PVal.plt (PVal.num 0) (cpfOf wc wb) = true →
        (p_effOf pr (cpfOf wc wb)).isna = true)
    ∧ (pr.isna = true → cpfOf wc wb = PVal.num 0 →
        p_effOf pr (cpfOf wc wb) = PVal.num 0) := by
  refine ⟨?_, ?_, ?_, ?_, ?_⟩
  · intro h
    simp [cpfOf, h, PVal.div, h.ne']
  · intro h
    simp [cpfOf, h]
  · intro p c hc
    simp [p_effOf, PVal.plt, hc, PVal.div, hc.ne']
  · intro hna hpos
    have hpr : pr = PVal.nan := by cases pr <;> simp_all [PVal.isna]
    subst hpr
    cases h3 : cpfOf wc wb <;> simp [p_effOf, hpos, PVal.div, PVal.isna] <;>
      simp_all [PVal.plt]
  · intro hna h0
    rw [p_effOf, h0]
    simp [PVal.plt]

/-- Witness for C6 (amended) at the app's default complexity weights
`wbar_current = 1.8`, `wbar_baseline = 1.7`: the CPF formula fires and a
NaN `P_ref` propagates through the positive CPF. -/
theorem c6_productivity_pipeline_witness :
    (0 : ℚ) ≤ 1.8 ∧ (0 : ℚ) ≤ 1.7 ∧ (0 : ℚ) < 1.7
    ∧ cpfOf 1.8 1.7 = PVal.num (1.8 / 1.7)
    ∧ (p_effOf PVal.nan (cpfOf 1.8 1.7)).isna = true := by
  have h := c6_productivity_pipeline 1.8 1.7 (by norm_num) (by norm_num) PVal.nan
  refine ⟨by norm_num, by norm_num, by norm_num, h.1 (by norm_num), ?_⟩
  refine h.2.2.2.1 rfl ?_
  rw [h.1 (by norm_num)]
  simp [PVal.plt]
  norm_num

/-- A one-county outputs table with `FTE_on = 10` and `P_eff = 0`, so that
`capacity_eff = 0`. -/
def c5df : List UnitRow :=
  [{ county := "A", ap := PVal.num 0, cpf := PVal.num 1, p_ref := PVal.num 0,
     p_eff := PVal.num 0, fte_on := PVal.num 10, utilization := PVal.nan,
     backlog_start := PVal.num 0, backlog_end := PVal.num 0,
     fte_required := PVal.nan, gap := PVal.nan, rag := "" }]

/-- A single arrival record for that county worth `10 × 1 = 10` points. -/
def c5arr : List ArrivalRow :=
  [{ county := "A", category := "Standard Case Work",
     count := RawCell.rnum 10, weight := RawCell.rnum 1 }]

/-- Counterexample to C5: on the arrivals-only recompute path the claim
says utilization is NaN when `capacity_eff ≤ 0` and `fte_required`/`gap`
are NaN when `P_eff ≤ 0`.  On `c5df`/`c5arr` the recomputed `AP` is `10`
and `capacity_eff = 10 * 0 = 0`, yet lines 81-84 divide without a guard:
utilization, `fte_required` and `gap` come out `+inf` (defined), and the
RAG is `"RED"`, not the undefined category. -/
theorem c5_counterexample :
    (recompute_from_arrivals c5df (some c5arr) none).map
        (fun r => (r.ap, PVal.mul r.fte_on r.p_eff, r.utilization,
                   r.fte_required, r.gap, r.rag))
      = [(PVal.num 10, PVal.num 0, PVal.pinf, PVal.pinf, PVal.pinf, "RED")] := by
  with_unfolding_all rfl

/-- C5 as amended.  Manual mode (lines 308-312) behaves exactly as the
claim states: `capacity_eff = fte_on × P_eff`; utilization is
`AP / capacity_eff` when `capacity_eff > 0` and NaN otherwise (with the
RAG then the undefined category); `backlog_end = backlog_start + AP −
capacity_eff`; `fte_required = AP / P_eff + buffer` when `P_eff > 0` and
NaN otherwise; `gap = fte_required − fte_on`, NaN when `fte_required` is
NaN.  On the arrivals-only recompute path (lines 81-85) the same formulas
are computed with the fallback buffer `0.30` but with *unguarded* float
division: when `capacity_eff = 0` and `AP > 0` utilization is `+inf` and
the RAG is `"RED"` (NaN only when `AP = 0` too), and when `P_eff = 0 <
AP`, `fte_required` and `gap` are `+inf`; the RAG is always the
classification of the recomputed utilization. -/
theorem c5_dependent_chain :
    (∀ cb av wc wb f b bs ap : ℚ, 0 < av →
      (∃ pe : ℚ, (manualCompute cb av wc wb f b bs ap).p_eff = PVal.num pe)
      ∧ (manualCompute cb av wc wb f b bs ap).cap_eff
          = PVal.mul (PVal.num f) (manualCompute cb av wc wb f b bs ap).p_eff
      ∧ (∀ pe : ℚ, (manualCompute cb av wc wb f b bs ap).p_eff = PVal.num pe →
          (0 < f * pe →
            (manualCompute cb av wc wb f b bs ap).utilization = PVal.num (ap / (f * pe))
            ∧ (manualCompute cb av wc wb f b bs ap).rag
                = rag (PVal.num (ap / (f * pe))) 0.75 0.85)
          ∧ (¬ 0 < f * pe →
            (manualCompute cb av wc wb f b bs ap).utilization = PVal.nan
            ∧ (manualCompute cb av wc wb f b bs ap).rag = "")
          ∧ (manualCompute cb av wc wb f b bs ap).backlog_end
              = PVal.num (bs + ap - f * pe)
          ∧ (0 < pe →
            (manualCompute cb av wc wb f b bs ap).fte_required = PVal.num (ap / pe + b)
            ∧ (manualCompute cb av wc wb f b bs ap).gap = PVal.num (ap / pe + b - f))
          ∧ (¬ 0 < pe →
            (manualCompute cb av wc wb f b bs ap).fte_required = PVal.nan
            ∧ (manualCompute cb av wc wb f b bs ap).gap = PVal.nan)))
    ∧ (∀ (r : UnitRow) (a f pe bs : ℚ),
        r.ap = PVal.num a → r.fte_on = PVal.num f →
        r.p_eff = PVal.num pe → r.backlog_start = PVal.num bs →
        (f * pe ≠ 0 → (depStep r).utilization = PVal.num (a / (f * pe)))
        ∧ (f * pe = 0 → 0 < a →
            (depStep r).utilization = PVal.pinf ∧ (depStep r).rag = "RED")
        ∧ (f * pe = 0 → a = 0 →
            (depStep r).utilization = PVal.nan ∧ (depStep r).rag = "")
        ∧ (depStep r).backlog_end = PVal.num (bs + a - f * pe)
        ∧ (0 < pe → (depStep r).fte_required = PVal.num (a / pe + 0.30)
            ∧ (depStep r).gap = PVal.num (a / pe + 0.30 - f))
        ∧ (pe = 0 → 0 < a →
            (depStep r).fte_required = PVal.pinf ∧ (depStep r).gap = PVal.pinf)
        ∧ (depStep r).rag = ragD (depStep r).utilization) := by
  constructor
  · intro cb av wc wb f b bs ap hav
    have hpr : p_refOf cb av = PVal.num (cb / av) := by
      simp [p_refOf, PVal.div, hav.ne']
    have hcpf : ∃ c : ℚ, cpfOf wc wb = PVal.num c := by
      by_cases h : 0 < wb
      · exact ⟨wc / wb, by simp [cpfOf, h, PVal.div, h.ne']⟩
      · exact ⟨1, by simp [cpfOf, h]⟩
    obtain ⟨c, hc⟩ := hcpf
    refine ⟨?_, rfl, ?_⟩
    · by_cases h : 0 < c
      · refine ⟨(cb / av) / c, ?_⟩
        simp [manualCompute, p_effOf, hpr, hc, PVal.plt, h, PVal.div, h.ne']
      · refine ⟨0, ?_⟩
        simp [manualCompute, p_effOf, hpr, hc, PVal.plt, h]
    · intro pe hpe
      have hpe' : p_effOf (p_refOf cb av) (cpfOf wc wb) = PVal.num pe := hpe
      refine ⟨?_, ?_, ?_, ?_, ?_⟩
      · intro hpos
        constructor
        · simp [manualCompute, hpe', PVal.mul, PVal.plt, hpos, PVal.div, hpos.ne']
        · simp [manualCompute, hpe', PVal.mul, PVal.plt, hpos, PVal.div, hpos.ne', ragD]
      · intro hpos
        constructor
        · simp [manualCompute, hpe', PVal.mul, PVal.plt, hpos]
        · simp [manualCompute, hpe', PVal.mul, PVal.plt, hpos, ragD, rag, PVal.isna]
      · simp [manualCompute, hpe', PVal.mul, PVal.add, PVal.sub, PVal.neg]
        ring
      · intro hpos
        constructor
        · simp [manualCompute, hpe', PVal.plt, hpos, PVal.div, hpos.ne', PVal.add]
        · simp [manualCompute, hpe', PVal.plt, hpos, PVal.div, hpos.ne', PVal.add,
            PVal.sub, PVal.neg, PVal.isna]
          ring
      · intro hpos
        constructor
        · simp [manualCompute, hpe', PVal.plt, hpos]
        · simp [manualCompute, hpe', PVal.plt, hpos, PVal.isna]
  · intro r a f pe bs ha hf hp hb
    refine ⟨?_, ?_, ?_, ?_, ?_, ?_, rfl⟩
    · intro h
      simp [depStep, ha, hf, hp, PVal.mul, PVal.div, h]
    · intro h hpos
      constructor
      · simp [depStep, ha, hf, hp, PVal.mul, PVal.div, h, hpos, hpos.ne']
      · simp [depStep, ha, hf, hp, PVal.mul, PVal.div, h, hpos, hpos.ne',
          ragD, rag, PVal.isna, PVal.ple]
    · intro h h0
      constructor
      · simp [depStep, ha, hf, hp, PVal.mul, PVal.div, h, h0]
      · simp [depStep, ha, hf, hp, PVal.mul, PVal.div, h, h0, ragD, rag, PVal.isna]
    · simp [depStep, ha, hf, hp, hb, PVal.mul, PVal.add, PVal.sub, PVal.neg]
      ring
    · intro hpe
      constructor
      · simp [depStep, ha, hp, PVal.div, hpe.ne', PVal.add]
      · simp [depStep, ha, hf, hp, PVal.div, hpe.ne', PVal.add, PVal.sub, PVal.neg]
        ring
    · intro hpe ha0
      constructor
      · simp [depStep, ha, hp, PVal.div, hpe, ha0, ha0.ne', PVal.add]
      · simp [depStep, ha, hf, hp, PVal.div, hpe, ha0, ha0.ne', PVal.add,
          PVal.sub, PVal.neg]

/-- The spec's worked formula example as a unit outputs row:
`fte_on = 10`, `AP = 8000`, `P_eff = 800`, `backlog_start = 0`. -/
def specExampleRow : UnitRow :=
  { county := "A", ap := PVal.num 8000, cpf := PVal.num 1, p_ref := PVal.num 800,
    p_eff := PVal.num 800, fte_on := PVal.num 10, utilization := PVal.nan,
    backlog_start := PVal.num 0, backlog_end := PVal.num 0,
    fte_required := PVal.nan, gap := PVal.nan, rag := "" }

/-- Witness for C5 (amended), instantiating both halves on the spec's
worked example (`AP = 8000`, `P_eff = 800`, `fte_on = 10`). -/
theorem c5_dependent_chain_witness :
    (0 : ℚ) < 12.5
    ∧ (manualCompute 10000 12.5 1 1 10 0.30 0 8000).cap_eff
        = PVal.mul (PVal.num 10) (manualCompute 10000 12.5 1 1 10 0.30 0 8000).p_eff
    ∧ (depStep specExampleRow).fte_required = PVal.num (8000 / 800 + 0.30)
    ∧ (depStep specExampleRow).gap = PVal.num (8000 / 800 + 0.30 - 10)
    ∧ (depStep specExampleRow).utilization = PVal.num (8000 / (10 * 800)) := by
  have hA := c5_dependent_chain.1 10000 12.5 1 1 10 0.30 0 8000 (by norm_num)
  have hB := c5_dependent_chain.2 specExampleRow 8000 10 800 0 rfl rfl rfl rfl
  have hfr := hB.2.2.2.2.1 (by norm_num)
  refine ⟨by norm_num, hA.2.1, hfr.1, hfr.2, ?_⟩
  exact hB.1 (by norm_num)

theorem foldl_add_allnum (l : List PVal) (q : ℚ)
    (h : ∀ v ∈ l, ∃ a : ℚ, v = PVal.num a) :
    l.foldl PVal.add (PVal.num q) = PVal.num (q + defsum l) := by
  induction l generalizing q with
  | nil => simp [defsum]
  | cons v l ih =>
    obtain ⟨a, rfl⟩ := h v (List.mem_cons_self v l)
    rw [List.foldl_cons]
    show List.foldl PVal.add (PVal.num (q + a)) l = _
    rw [ih (q + a) (fun w hw => h w (List.mem_cons_of_mem _ hw))]
    simp [defsum, toQ]
    ring

theorem defsum_filter_isna (l : List PVal) :
    defsum (l.filter (fun v => !v.isna)) = defsum l := by
  induction l with
  | nil => rfl
  | cons v l ih =>
    cases v <;> simp [defsum, List.filter_cons, PVal.isna, toQ] at * <;> simp [ih]

/-- On a column without infinities, the pandas `skipna` sum is exactly the
rational sum of the defined values. -/
theorem sumSkip_eq_defsum (l : List PVal) (h : ∀ v ∈ l, finOrNan v) :
    sumSkip l = PVal.num (defsum l) := by
  rw [sumSkip, foldl_add_allnum, defsum_filter_isna, zero_add]
  intro v hv
  have hv' := List.mem_filter.mp hv
  have h1 := h v hv'.1
  cases v with
  | num a => exact ⟨a, rfl⟩
  | pinf => exact absurd rfl h1.1
  | ninf => exact absurd rfl h1.2
  | nan => simp [PVal.isna] at hv'

theorem mul_finOrNan {x y : PVal} (hx : finOrNan x) (hy : finOrNan y) :
    finOrNan (PVal.mul x y) := by
  cases x <;> cases y <;> simp_all [finOrNan, PVal.mul]

theorem mul_nan_right (x : PVal) : PVal.mul x PVal.nan = PVal.nan := by
  cases x <;> rfl

theorem finOrNan_cases {v : PVal} (h : finOrNan v) :
    (∃ a : ℚ, v = PVal.num a) ∨ v = PVal.nan := by
  cases v <;> simp_all [finOrNan]

/-- The spec-side capacity sum: over the units whose `FTE_on` and `P_eff`
are both defined, the sum of the products `FTE_on × P_eff`. -/
def capQ (df : List UnitRow) : ℚ :=
  (df.filterMap (fun r =>
    match toQ r.fte_on, toQ r.p_eff with
    | some fq, some pq => some (fq * pq)
    | _, _ => none)).sum

theorem defsum_cons_num (a : ℚ) (l : List PVal) :
    defsum (PVal.num a :: l) = a + defsum l := by
  simp [defsum, toQ]

theorem defsum_cons_nan (l : List PVal) :
    defsum (PVal.nan :: l) = defsum l := by
  simp [defsum, toQ]

theorem capQ_cons_num (r : UnitRow) (df : List UnitRow) (fq pq : ℚ)
    (hf : r.fte_on = PVal.num fq) (hp : r.p_eff = PVal.num pq) :
    capQ (r :: df) = fq * pq + capQ df := by
  rw [capQ, List.filterMap_cons, hf, hp]
  rfl

theorem capQ_cons_undef (r : UnitRow) (df : List UnitRow)
    (h : toQ r.fte_on = none ∨ toQ r.p_eff = none) :
    capQ (r :: df) = capQ df := by
  rw [capQ, List.filterMap_cons]
  rcases h with h | h <;> rw [h]
  · rfl
  · cases toQ r.fte_on <;> rfl

/-- On infinity-free rows, the code's capacity column sum (elementwise
`FTE_on * P_eff` with NaN products skipped) equals the spec-side `capQ`. -/
theorem defsum_cap (df : List UnitRow)
    (h : ∀ r ∈ df, finOrNan r.fte_on ∧ finOrNan r.p_eff) :
    defsum (df.map (fun r => PVal.mul r.fte_on r.p_eff)) = capQ df := by
  induction df with
  | nil => rfl
  | cons r df ih =>
    have hr := h r (List.mem_cons_self r df)
    have ih' := ih (fun w hw => h w (List.mem_cons_of_mem _ hw))
    rw [List.map_cons]
    rcases finOrNan_cases hr.1 with ⟨fq, hf⟩ | hf <;>
      rcases finOrNan_cases hr.2 with ⟨pq, hp⟩ | hp
    · rw [hf, hp]
      show defsum (PVal.num (fq * pq) :: _) = _
      rw [defsum_cons_num, capQ_cons_num r df fq pq hf hp, ih']
    · rw [hf, hp, mul_nan_right, defsum_cons_nan, ih',
        capQ_cons_undef r df (Or.inr (by rw [hp]; rfl))]
    · rw [hf, hp]
      show defsum (PVal.nan :: _) = _
      rw [defsum_cons_nan, ih', capQ_cons_undef r df (Or.inl (by rw [hf]; rfl))]
    · rw [hf, hp, mul_nan_right, defsum_cons_nan, ih',
        capQ_cons_undef r df (Or.inl (by rw [hf]; rfl))]

/-- C1: on any infinity-free unit-metrics table, the state rollup sums
each column over only its defined (non-NaN) values,
`Util_state = (Σ AP) / (Σ FTE_on × P_eff over defined pairs)` when the
capacity sum is positive and NaN otherwise; moreover a unit with an
undefined `P_eff` contributes nothing to the capacity sum, and a fully
undefined unit (NaN `P_eff` and NaN `AP`) leaves `Util_state` exactly the
rollup of the remaining units. -/
theorem c1_state_rollup :
    (∀ df : List UnitRow,
      (∀ r ∈ df, finOrNan r.ap ∧ finOrNan r.fte_on ∧ finOrNan r.p_eff
        ∧ finOrNan r.fte_required ∧ finOrNan r.gap
        ∧ finOrNan r.backlog_start ∧ finOrNan r.backlog_end) →
      (compute_state_rollup df).AP_state = PVal.num (defsum (df.map (fun r => r.ap)))
      ∧ (compute_state_rollup df).Capacity_state = PVal.num (capQ df)
      ∧ (0 < capQ df → (compute_state_rollup df).Util_state
          = PVal.num (defsum (df.map (fun r => r.ap)) / capQ df))
      ∧ (¬ 0 < capQ df → (compute_state_rollup df).Util_state = PVal.nan)
      ∧ (compute_state_rollup df).FTE_required_state
          = PVal.num (defsum (df.map (fun r => r.fte_required)))
      ∧ (compute_state_rollup df).FTE_on_state
          = PVal.num (defsum (df.map (fun r => r.fte_on)))
      ∧ (compute_state_rollup df).Gap_state
          = PVal.num (defsum (df.map (fun r => r.gap)))
      ∧ (compute_state_rollup df).Backlog_Start_state
          = PVal.num (defsum (df.map (fun r => r.backlog_start)))
      ∧ (compute_state_rollup df).Backlog_End_state
          = PVal.num (defsum (df.map (fun r => r.backlog_end))))
    ∧ (∀ (r : UnitRow) (rest : List UnitRow), r.p_eff = PVal.nan →
        (compute_state_rollup (r :: rest)).Capacity_state
          = (compute_state_rollup rest).Capacity_state
        ∧ (r.ap = PVal.nan → (compute_state_rollup (r :: rest)).Util_state
            = (compute_state_rollup rest).Util_state)) := by
  constructor
  · intro df h
    have hap : sumSkip (df.map (fun r => r.ap))
        = PVal.num (defsum (df.map (fun r => r.ap))) := by
      refine sumSkip_eq_defsum _ ?_
      intro v hv
      obtain ⟨r, hr, rfl⟩ := List.mem_map.mp hv
      exact (h r hr).1
    have hcap : sumSkip (df.map (fun r => PVal.mul r.fte_on r.p_eff))
        = PVal.num (capQ df) := by
      rw [sumSkip_eq_defsum, defsum_cap df (fun r hr => ⟨(h r hr).2.1, (h r hr).2.2.1⟩)]
      intro v hv
      obtain ⟨r, hr, rfl⟩ := List.mem_map.mp hv
      exact mul_finOrNan (h r hr).2.1 (h r hr).2.2.1
    have hcol : ∀ (f : UnitRow → PVal), (∀ r ∈ df, finOrNan (f r)) →
        sumSkip (df.map f) = PVal.num (defsum (df.map f)) := by
      intro f hf
      refine sumSkip_eq_defsum _ ?_
      intro v hv
      obtain ⟨r, hr, rfl⟩ := List.mem_map.mp hv
      exact hf r hr
    refine ⟨hap, hcap, ?_, ?_,
      hcol _ (fun r hr => (h r hr).2.2.2.1),
      hcol _ (fun r hr => (h r hr).2.1),
      hcol _ (fun r hr => (h r hr).2.2.2.2.1),
      hcol _ (fun r hr => (h r hr).2.2.2.2.2.1),
      hcol _ (fun r hr => (h r hr).2.2.2.2.2.2)⟩
    · intro hpos
      show (if _ && _ then _ else _) = _
      rw [hcap, hap]
      rw [if_pos]
      · simp [PVal.div, hpos.ne']
      · simp [PVal.truthy, PVal.plt, hpos, hpos.ne']
    · intro hpos
      show (if _ && _ then _ else _) = _
      rw [hcap]
      rw [if_neg]
      simp [PVal.truthy, PVal.plt]
      intro h0
      exact not_lt.mp hpos
  · intro r rest hpe
    have hcapeq : sumSkip ((r :: rest).map (fun x => PVal.mul x.fte_on x.p_eff))
        = sumSkip (rest.map (fun x => PVal.mul x.fte_on x.p_eff)) := by
      rw [List.map_cons, hpe, mul_nan_right]
      rw [sumSkip, sumSkip, List.filter_cons]
      simp [PVal.isna]
    refine ⟨hcapeq, ?_⟩
    intro hap
    have hapeq : sumSkip ((r :: rest).map (fun x => x.ap))
        = sumSkip (rest.map (fun x => x.ap)) := by
      rw [List.map_cons, hap]
      rw [sumSkip, sumSkip, List.filter_cons]
      simp [PVal.isna]
    show (if _ then _ else _) = (if _ then _ else _)
    rw [hcapeq, hapeq]

/-- The spec's weighted-aggregation example: unit A with `AP = 100`,
capacity `10 × 10 = 100`; unit B with `AP = 10`, capacity
`10 × 100 = 1000`. -/
def c1df : List UnitRow :=
  [{ county := "A", ap := PVal.num 100, cpf := PVal.num 1, p_ref := PVal.num 10,
     p_eff := PVal.num 10, fte_on := PVal.num 10, utilization := PVal.num 1,
     backlog_start := PVal.num 0, backlog_end := PVal.num 0,
     fte_required := PVal.num 10, gap := PVal.num 0, rag := "" },
   { county := "B", ap := PVal.num 10, cpf := PVal.num 1, p_ref := PVal.num 100,
     p_eff := PVal.num 100, fte_on := PVal.num 10, utilization := PVal.num 1,
     backlog_start := PVal.num 0, backlog_end := PVal.num 0,
     fte_required := PVal.num 10, gap := PVal.num 0, rag := "" }]

/-- Witness for C1 on the spec's example table: the hypotheses hold and
`Util_state = 110 / 1100` (capacity-weighted, not the mean of the two
utilizations). -/
theorem c1_state_rollup_witness :
    (∀ r ∈ c1df, finOrNan r.ap ∧ finOrNan r.fte_on ∧ finOrNan r.p_eff
      ∧ finOrNan r.fte_required ∧ finOrNan r.gap
      ∧ finOrNan r.backlog_start ∧ finOrNan r.backlog_end)
    ∧ (compute_state_rollup c1df).Util_state = PVal.num (110 / 1100) := by
  have hfin : ∀ r ∈ c1df, finOrNan r.ap ∧ finOrNan r.fte_on ∧ finOrNan r.p_eff
      ∧ finOrNan r.fte_required ∧ finOrNan r.gap
      ∧ finOrNan r.backlog_start ∧ finOrNan r.backlog_end := by decide
  have h1 : defsum (c1df.map (fun r => r.ap)) = 110 := by with_unfolding_all rfl
  have h2 : capQ c1df = 1100 := by with_unfolding_all rfl
  have h := (c1_state_rollup.1 c1df hfin).2.2.1 (by rw [h2]; norm_num)
  rw [h, h1, h2]
  exact ⟨hfin, rfl⟩

theorem filter_of_find?_none (w : List WRow) (c : String)
    (h : w.find? (fun x => x.category == c) = none) :
    w.filter (fun x => x.category == c) = [] := by
  rw [List.filter_eq_nil_iff]
  exact fun x hx => List.find?_eq_none.mp h x hx

/-- With pairwise-distinct categories, the rows matching a category key
are exactly the one `find?` returns. -/
theorem filter_of_find?_some (w : List WRow) (c : String) (x : WRow)
    (hnd : (w.map (fun z => z.category)).Nodup)
    (h : w.find? (fun z => z.category == c) = some x) :
    w.filter (fun z => z.category == c) = [x] := by
  induction w with
  | nil => simp at h
  | cons y w ih =>
    rw [List.map_cons, List.nodup_cons] at hnd
    by_cases hyc : y.category = c
    · rw [List.find?_cons_of_pos _ (by simp [hyc])] at h
      obtain rfl : y = x := by injection h
      rw [List.filter_cons_of_pos (by simp [hyc])]
      have : w.filter (fun z => z.category == c) = [] := by
        rw [List.filter_eq_nil_iff]
        intro z hz
        simp only [beq_iff_eq]
        intro hzc
        exact hnd.1 (by rw [← hyc] at hzc; exact hzc ▸ List.mem_map.mpr ⟨z, hz, rfl⟩)
      rw [this]
    · rw [List.find?_cons_of_neg _ (by simp [hyc])] at h
      rw [List.filter_cons_of_neg (by simp [hyc])]
      exact ih hnd.2 h

theorem stripWRow_cat (x : WRow) : (stripWRow x).category = stripStr x.category := rfl

theorem stripWRow_weight (x : WRow) : (stripWRow x).weight = x.weight := rfl

theorem stripArrival_cat (r : ArrivalRow) :
    (stripArrival r).category = stripStr r.category := rfl

theorem stripArrival_county (r : ArrivalRow) :
    (stripArrival r).county = stripStr r.county := rfl

theorem stripArrival_count (r : ArrivalRow) : (stripArrival r).count = r.count := rfl

theorem stripArrival_weight (r : ArrivalRow) : (stripArrival r).weight = r.weight := rfl

/-- One arrival row through the override merge + `fillna`: with distinct,
non-missing override categories it becomes exactly "replace the weight if
the stripped override category matches, keep it otherwise". -/
theorem overrideRow_eq (wdf : List WRow) (r : ArrivalRow)
    (hnd : (wdf.map (fun x => stripStr x.category)).Nodup)
    (hw : ∀ x ∈ wdf, x.weight ≠ RawCell.rnan) :
    (match (wdf.map stripWRow).filter (fun x => x.category == r.category) with
     | [] => [r]
     | ms => ms.map (fun x =>
         { r with weight := if x.weight == RawCell.rnan then r.weight else x.weight }))
    = [match wdf.find? (fun x => stripStr x.category == r.category) with
       | some x => { r with weight := x.weight }
       | none => r] := by
  have hfm : (wdf.map stripWRow).find? (fun z => z.category == r.category)
      = Option.map stripWRow (wdf.find? (fun x => stripStr x.category == r.category)) :=
    List.find?_map _ _
  have hndW : ((wdf.map stripWRow).map (fun z => z.category)).Nodup := by
    rw [List.map_map]
    exact hnd
  rcases hf : wdf.find? (fun x => stripStr x.category == r.category) with _ | x
  · rw [hf] at hfm
    rw [filter_of_find?_none _ _ hfm, hf]
  · rw [hf] at hfm
    have hfil := filter_of_find?_some _ _ _ hndW hfm
    rw [hfil]
    have hx : x ∈ wdf := List.mem_of_find?_eq_some hf
    have hxw : (x.weight == RawCell.rnan) = false := by
      simpa using hw x hx
    simp only [List.map_cons, List.map_nil, stripWRow_weight, hxw,
      Bool.false_eq_true, if_false]
    rw [hf]

theorem flatMap_single (a : List α) (g : α → β) :
    (a.flatMap fun x => [g x]) = a.map g := by
  induction a with
  | nil => rfl
  | cons r a ih => simp [List.flatMap_cons, ih]

/-- C3: for an override table with pairwise-distinct (trimmed) categories
and defined weights, the override replaces the weight of every arrival row
whose trimmed category has a matching override row, leaves every other
arrival row untouched, never adds or removes arrival rows (an override
category with no matching arrivals has no effect), and the whole
application is a pure function of its arguments (the base tables are
values and are not modified).  The second half states the same through
`pointsRows`: each arrival record contributes `count × weight` with the
override-resolved weight, matched on trimmed, case-sensitive names. -/
theorem c3_weight_override (wdf : List WRow)
    (hnd : (wdf.map (fun x => stripStr x.category)).Nodup)
    (hw : ∀ x ∈ wdf, x.weight ≠ RawCell.rnan) :
    (∀ a : List ArrivalRow,
      applyWeightOverride a (some wdf)
        = a.map (fun r =>
            match wdf.find? (fun x => stripStr x.category == r.category) with
            | some x => { r with weight := x.weight }
            | none => r)
      ∧ (applyWeightOverride a (some wdf)).length = a.length)
    ∧ (∀ arr : List ArrivalRow,
        pointsRows arr (some wdf)
          = arr.map (fun r =>
              (stripStr r.county,
               coerceCell r.count * coerceCell
                 (match wdf.find? (fun x => stripStr x.category == stripStr r.category) with
                  | some x => x.weight
                  | none => r.weight)))) := by
  have hmain : ∀ a : List ArrivalRow,
      applyWeightOverride a (some wdf)
        = a.map (fun r =>
            match wdf.find? (fun x => stripStr x.category == r.category) with
            | some x => { r with weight := x.weight }
            | none => r) := by
    intro a
    rcases heq : wdf with _ | ⟨y, wtl⟩
    · subst heq
      simp [applyWeightOverride]
    rw [← heq]
    have hne : wdf.isEmpty = false := by rw [heq]; rfl
    rw [applyWeightOverride]
    simp only [hne, Bool.false_eq_true, if_false]
    rw [List.flatMap_congr (fun r _ => overrideRow_eq wdf r hnd hw)]
    exact flatMap_single a _
  refine ⟨fun a => ⟨hmain a, by rw [hmain a, List.length_map]⟩, ?_⟩
  intro arr
  rw [pointsRows, hmain, List.map_map, List.map_map]
  refine List.map_congr_left ?_
  intro r _
  simp only [Function.comp_apply, stripArrival_cat]
  rcases hf : wdf.find? (fun x => stripStr x.category == stripStr r.category) with _ | x <;>
    simp [hf, stripArrival_county, stripArrival_count, stripArrival_weight]

/-- The spec's override example: one arrival `(Cat1, count 10, weight 1)`. -/
def c3arr : List ArrivalRow :=
  [{ county := "A", category := "Cat1", count := RawCell.rnum 10,
     weight := RawCell.rnum 1 }]

/-- The spec's override example: override `(Cat1, weight 2)`. -/
def c3wdf : List WRow := [{ category := "Cat1", weight := RawCell.rnum 2 }]

/-- Witness for C3 on the spec's example: hypotheses hold and the arrival
contributes `10 × 2 = 20` points, not `10`. -/
theorem c3_weight_override_witness :
    (c3wdf.map (fun x => stripStr x.category)).Nodup
    ∧ (∀ x ∈ c3wdf, x.weight ≠ RawCell.rnan)
    ∧ pointsRows c3arr (some c3wdf) = [("A", 20)] := by
  have hnd : (c3wdf.map (fun x => stripStr x.category)).Nodup := by decide
  have hw : ∀ x ∈ c3wdf, x.weight ≠ RawCell.rnan := by decide
  refine ⟨hnd, hw, ?_⟩
  rw [(c3_weight_override c3wdf hnd hw).2 c3arr]
  with_unfolding_all rfl

theorem stripChars_eq_rdropWhile (l : List Char) :
    stripChars l = List.rdropWhile Char.isWhitespace (l.dropWhile Char.isWhitespace) := rfl

/-- Python's `str.strip` is idempotent. -/
theorem stripChars_idem (l : List Char) : stripChars (stripChars l) = stripChars l := by
  rw [stripChars_eq_rdropWhile, stripChars_eq_rdropWhile]
  have hd : (List.rdropWhile Char.isWhitespace (l.dropWhile Char.isWhitespace)).dropWhile
        Char.isWhitespace
      = List.rdropWhile Char.isWhitespace (l.dropWhile Char.isWhitespace) := by
    rw [List.dropWhile_eq_self_iff]
    intro hl
    obtain ⟨t, ht⟩ := List.dropWhile_suffix
      (l := (l.dropWhile Char.isWhitespace).reverse) (p := Char.isWhitespace)
    have hu : l.dropWhile Char.isWhitespace
        = ((l.dropWhile Char.isWhitespace).reverse.dropWhile Char.isWhitespace).reverse
          ++ t.reverse := by
      rw [← List.reverse_append, ht, List.reverse_reverse]
    have hv : 0 < (((l.dropWhile Char.isWhitespace).reverse.dropWhile
        Char.isWhitespace).reverse).length := hl
    have hul : 0 < (l.dropWhile Char.isWhitespace).length := by
      rw [hu, List.length_append]
      omega
    have hnot := List.dropWhile_get_zero_not (p := Char.isWhitespace) l hul
    have e1 : (l.dropWhile Char.isWhitespace)[0]?
        = (((l.dropWhile Char.isWhitespace).reverse.dropWhile
            Char.isWhitespace).reverse)[0]? := by
      conv_lhs => rw [hu]
      exact List.getElem?_append_left hv
    rw [List.getElem?_eq_getElem hul, List.getElem?_eq_getElem hv] at e1
    have e2 : (l.dropWhile Char.isWhitespace).get ⟨0, hul⟩
        = (((l.dropWhile Char.isWhitespace).reverse.dropWhile
            Char.isWhitespace).reverse).get ⟨0, hv⟩ := by
      rw [List.get_eq_getElem, List.get_eq_getElem]
      exact Option.some_injective _ e1
    show ¬ ((((l.dropWhile Char.isWhitespace).reverse.dropWhile
        Char.isWhitespace).reverse).get ⟨0, hv⟩).isWhitespace = true
    rw [← e2]
    exact hnot
  rw [hd, List.rdropWhile_idempotent]

theorem stripStr_idem (s : String) : stripStr (stripStr s) = stripStr s := by
  show String.mk (stripChars (stripChars s.data)) = String.mk (stripChars s.data)
  exact congrArg String.mk (stripChars_idem s.data)

theorem depStep_county (u : UnitRow) : (depStep u).county = u.county := rfl

theorem depStep_ap (u : UnitRow) : (depStep u).ap = u.ap := rfl

theorem apStep_county (pts : List (String × ℚ)) (u : UnitRow) :
    (apStep pts u).county = u.county := by
  rw [apStep]
  split <;> rfl

theorem stripCountyRow_county (r : UnitRow) :
    (stripCountyRow r).county = stripStr r.county := rfl

/-- C8: the full recompute is a pure function (the embedding is
functional, mirroring the `.copy()` discipline of the source, so the
inputs are never modified), it is deterministic, and it is idempotent:
running it again on its own output with the same arrivals and weights
changes nothing. -/
theorem c8_recompute_idempotent (df : List UnitRow) (arrivals : Option (List ArrivalRow))
    (weights_df : Option (List WRow)) :
    recompute_from_arrivals (recompute_from_arrivals df arrivals weights_df)
        arrivals weights_df
      = recompute_from_arrivals df arrivals weights_df := by
  rcases arrivals with _ | arr
  · rfl
  by_cases he : arr.isEmpty
  · rw [recompute_from_arrivals, recompute_from_arrivals]
    simp only [he, if_true]
  rw [recompute_from_arrivals, recompute_from_arrivals]
  simp only [he, Bool.false_eq_true, if_false, List.map_map]
  refine List.map_congr_left ?_
  intro r _
  simp only [Function.comp_apply]
  by_cases hc : hasCounty (pointsRows arr weights_df) (stripStr r.county) = true
  · simp [stripCountyRow, apStep, depStep, stripStr_idem, hc]
  · simp only [Bool.not_eq_true] at hc
    simp [stripCountyRow, apStep, depStep, stripStr_idem, hc]

theorem pointsRows_none (arr : List ArrivalRow) :
    pointsRows arr none
      = arr.map (fun x => (stripStr x.county, coerceCell x.count * coerceCell x.weight)) := by
  rw [pointsRows, applyWeightOverride, List.map_map]
  rfl

theorem hasCounty_none (arr : List ArrivalRow) (c : String) :
    hasCounty (pointsRows arr none) c = arr.any (fun x => stripStr x.county == c) := by
  rw [pointsRows_none, hasCounty]
  induction arr with
  | nil => rfl
  | cons x arr ih => simp [ih]

theorem ap_calc_none (arr : List ArrivalRow) (c : String) :
    ap_calc (pointsRows arr none) c
      = ((arr.filter (fun x => stripStr x.county == c)).map
          (fun x => coerceCell x.count * coerceCell x.weight)).sum := by
  rw [pointsRows_none, ap_calc, List.filter_map, List.map_map]
  rfl

/-- Every row the override merge emits keeps the county of some input
arrival row: the merge never invents a county. -/
theorem mem_applyWeightOverride_county (a : List ArrivalRow)
    (w : Option (List WRow)) (u : ArrivalRow) (hu : u ∈ applyWeightOverride a w) :
    ∃ r ∈ a, u.county = r.county := by
  rcases w with _ | wdf
  · exact ⟨u, hu, rfl⟩
  rw [applyWeightOverride] at hu
  by_cases he : wdf.isEmpty
  · rw [if_pos he] at hu
    exact ⟨u, hu, rfl⟩
  rw [if_neg he] at hu
  obtain ⟨r, hr, hbody⟩ := List.mem_flatMap.mp hu
  refine ⟨r, hr, ?_⟩
  rcases hfil : (wdf.map stripWRow).filter (fun x => x.category == r.category) with _ | ⟨m, ms⟩
  · rw [hfil] at hbody
    simp at hbody
    rw [hbody]
  · rw [hfil] at hbody
    simp only [List.mem_map] at hbody
    obtain ⟨x, _, hx⟩ := hbody
    rw [← hx]

theorem hasCounty_false_of_no_arrival (arr : List ArrivalRow)
    (w : Option (List WRow)) (c : String)
    (h : ∀ x ∈ arr, ¬ stripStr x.county = c) :
    hasCounty (pointsRows arr w) c = false := by
  rw [hasCounty]
  rw [List.any_eq_false]
  intro p hp
  rw [pointsRows] at hp
  obtain ⟨u, hu, hpu⟩ := List.mem_map.mp hp
  obtain ⟨r0, hr0, hcu⟩ := mem_applyWeightOverride_county _ _ _ hu
  obtain ⟨x, hx, hxr⟩ := List.mem_map.mp hr0
  simp only [beq_iff_eq]
  rw [← hpu]
  simp only
  rw [hcu, ← hxr, stripArrival_county]
  exact h x hx

/-- C4: with no arrivals table (or an empty one) the recompute returns
the outputs table unchanged, for any weights table; with a non-empty
arrivals table, every unit that has arrival records (matched on trimmed
county names) gets `AP = Σ count × weight` over exactly its records,
where missing or non-numeric counts and weights are coerced to `0`
(`coerceCell`) instead of failing. -/
theorem c4_ap_recompute :
    (∀ (df : List UnitRow) (w : Option (List WRow)),
      recompute_from_arrivals df none w = df
      ∧ recompute_from_arrivals df (some []) w = df)
    ∧ (∀ (df : List UnitRow) (arr : List ArrivalRow), arr ≠ [] →
        (recompute_from_arrivals df (some arr) none).length = df.length
        ∧ (∀ (i : ℕ) (r : UnitRow), df[i]? = some r →
            arr.any (fun x => stripStr x.county == stripStr r.county) = true →
            ((recompute_from_arrivals df (some arr) none)[i]?).map (fun u => u.ap)
              = some (PVal.num
                  (((arr.filter (fun x => stripStr x.county == stripStr r.county)).map
                      (fun x => coerceCell x.count * coerceCell x.weight)).sum)))) := by
  constructor
  · exact fun df w => ⟨rfl, rfl⟩
  · intro df arr hne
    have he : arr.isEmpty = false := by
      rcases arr with _ | _
      · exact absurd rfl hne
      · rfl
    constructor
    · rw [recompute_from_arrivals]
      simp [he]
    · intro i r hdf hany
      rw [recompute_from_arrivals]
      simp only [he, Bool.false_eq_true, if_false]
      rw [List.getElem?_map, hdf, Option.map_some']
      rw [Option.map_some']
      have hc : hasCounty (pointsRows arr none) ((stripCountyRow r).county) = true := by
        rw [stripCountyRow_county, hasCounty_none]
        exact hany
      rw [depStep_ap, apStep, if_pos hc]
      show some (PVal.num (ap_calc (pointsRows arr none) ((stripCountyRow r).county))) = _
      rw [stripCountyRow_county, ap_calc_none]

/-- A unit row with `AP = NaN`, `FTE_on = 5`, `P_eff = 2`. -/
def c4row : UnitRow :=
  { county := "A", ap := PVal.nan, cpf := PVal.num 1, p_ref := PVal.num 2,
    p_eff := PVal.num 2, fte_on := PVal.num 5, utilization := PVal.nan,
    backlog_start := PVal.num 0, backlog_end := PVal.num 0,
    fte_required := PVal.nan, gap := PVal.nan, rag := "" }

/-- Arrivals for `c4row`'s county, one with an untrimmed county name and
one with a non-numeric count: `10×1 + 0×5 + 2×3 = 16`. -/
def c4arr : List ArrivalRow :=
  [{ county := "A", category := "c1", count := RawCell.rnum 10, weight := RawCell.rnum 1 },
   { county := " A ", category := "c2", count := RawCell.rbad "ten", weight := RawCell.rnum 5 },
   { county := "A", category := "c3", count := RawCell.rnum 2, weight := RawCell.rnum 3 }]

/-- Witness for C4: the recomputed `AP` for county `"A"` is `16` — the
untrimmed `" A "` record matches and the non-numeric count contributes
`0 × 5`. -/
theorem c4_ap_recompute_witness :
    c4arr ≠ []
    ∧ (c4arr.any fun x => stripStr x.county == stripStr c4row.county) = true
    ∧ ((recompute_from_arrivals [c4row] (some c4arr) none)[0]?).map (fun u => u.ap)
        = some (PVal.num 16) := by
  have hany : (c4arr.any fun x => stripStr x.county == stripStr c4row.county) = true := by
    decide
  have h := ((c4_ap_recompute.2 [c4row] c4arr (by decide)).2 0 c4row rfl hany)
  refine ⟨by decide, hany, ?_⟩
  rw [h]
  with_unfolding_all rfl

/-- C9: pass-through is per-unit.  With a non-empty arrivals table (and
any weights table), a unit whose trimmed county matches no arrival record
keeps its previous `AP` — even a NaN one — while its dependent fields are
still recomputed from that retained `AP` by the unguarded formula block
(utilization, backlog_end, fte_required with the `0.30` fallback buffer,
gap, and the RAG of the recomputed utilization). -/
theorem c9_per_unit_passthrough (df : List UnitRow) (arr : List ArrivalRow)
    (w : Option (List WRow)) (hne : arr ≠ []) :
    (recompute_from_arrivals df (some arr) w).length = df.length
    ∧ ∀ (i : ℕ) (r : UnitRow), df[i]? = some r →
        (∀ x ∈ arr, ¬ stripStr x.county = stripStr r.county) →
        ∃ u : UnitRow, (recompute_from_arrivals df (some arr) w)[i]? = some u
          ∧ u.ap = r.ap
          ∧ u.utilization = PVal.div r.ap (PVal.mul r.fte_on r.p_eff)
          ∧ u.backlog_end = PVal.sub (PVal.add r.backlog_start r.ap)
              (PVal.mul r.fte_on r.p_eff)
          ∧ u.fte_required = PVal.add (PVal.div r.ap r.p_eff) (PVal.num 0.30)
          ∧ u.gap = PVal.sub (PVal.add (PVal.div r.ap r.p_eff) (PVal.num 0.30)) r.fte_on
          ∧ u.rag = ragD (PVal.div r.ap (PVal.mul r.fte_on r.p_eff)) := by
  have he : arr.isEmpty = false := by
    rcases arr with _ | _
    · exact absurd rfl hne
    · rfl
  constructor
  · rw [recompute_from_arrivals]
    simp [he]
  · intro i r hdf hno
    have hc : hasCounty (pointsRows arr w) ((stripCountyRow r).county) = false := by
      rw [stripCountyRow_county]
      exact hasCounty_false_of_no_arrival arr w _ (fun x hx => hno x hx)
    have happ : apStep (pointsRows arr w) (stripCountyRow r) = stripCountyRow r := by
      rw [apStep, if_neg]
      rw [hc]
      simp
    refine ⟨depStep (apStep (pointsRows arr w) (stripCountyRow r)),
      ?_, ?_, ?_, ?_, ?_, ?_, ?_⟩
    · rw [recompute_from_arrivals]
      simp only [he, Bool.false_eq_true, if_false]
      rw [List.getElem?_map, hdf, Option.map_some']
    · rw [happ]
      rfl
    · rw [happ]
      rfl
    · rw [happ]
      rfl
    · rw [happ]
      rfl
    · rw [happ]
      rfl
    · rw [happ]
      rfl

/-- A unit row for county `"B"`, which has no arrival records. -/
def c9row : UnitRow :=
  { county := "B", ap := PVal.num 7, cpf := PVal.num 1, p_ref := PVal.num 2,
    p_eff := PVal.num 2, fte_on := PVal.num 5, utilization := PVal.nan,
    backlog_start := PVal.num 1, backlog_end := PVal.num 0,
    fte_required := PVal.nan, gap := PVal.nan, rag := "" }

/-- Arrivals mentioning only county `"A"`. -/
def c9arr : List ArrivalRow :=
  [{ county := "A", category := "c", count := RawCell.rnum 1, weight := RawCell.rnum 1 }]

/-- Witness for C9: county `"B"` keeps `AP = 7` and its utilization is
recomputed as `7 / (5 × 2) = 0.7`, classified `GREEN`. -/
theorem c9_per_unit_passthrough_witness :
    c9arr ≠ []
    ∧ (∀ x ∈ c9arr, ¬ stripStr x.county = stripStr c9row.county)
    ∧ ∃ u : UnitRow, (recompute_from_arrivals [c9row] (some c9arr) none)[0]? = some u
        ∧ u.ap = PVal.num 7
        ∧ u.utilization = PVal.num (7 / 10)
        ∧ u.rag = "GREEN" := by
  have hno : ∀ x ∈ c9arr, ¬ stripStr x.county = stripStr c9row.county := by decide
  obtain ⟨u, hu, hap, hutil, _, _, _, hrag⟩ :=
    (c9_per_unit_passthrough [c9row] c9arr none (by decide)).2 0 c9row rfl hno
  refine ⟨by decide, hno, u, hu, hap, ?_, ?_⟩
  · rw [hutil]
    with_unfolding_all rfl
  · rw [hrag]
    with_unfolding_all rfl
